import Mathlib

/-!
Verification of the SQL text-intelligence core of pg-tui against its
natural-language specification.

The Rust sources are shallowly embedded: strings are lists of characters,
byte offsets are computed from UTF-8 sizes where the source works with byte
indices, fallible operations (indexing that can panic in Rust) return
`Option`. Unicode character classes (`char::is_alphanumeric`,
`char::is_whitespace`, `str::to_uppercase`) are modelled by their ASCII
restrictions; every concrete input appearing in the claims is ASCII, and the
universal claims settled here do not depend on the classification of
non-ASCII characters.
-/

set_option maxHeartbeats 1000000
set_option maxRecDepth 8000

namespace PgTui

/-- Token kinds produced by the highlighter (src/syntax.rs, `TokenType`). -/
inductive TokenType where
  | Keyword
  | String
  | Number
  | Identifier
  | Operator
  | Comment
  | Whitespace
  | Punctuation
deriving DecidableEq, Repr

/-- Tokens of the highlighter (src/syntax.rs, `Token`): a kind plus the exact
source text, modelled as a list of characters. -/
structure Token where
  tokenType : TokenType
  text : List Char
deriving DecidableEq, Repr

/-- Keyword vocabulary of the highlighter (src/syntax.rs,
`SqlHighlighter::new`), stored uppercase exactly as in the source. -/
def sqlKeywords : List (List Char) :=
  [ "SELECT", "FROM", "WHERE", "INSERT", "INTO", "VALUES", "UPDATE", "SET", "DELETE",
    "JOIN", "INNER", "LEFT", "RIGHT", "FULL", "CROSS", "ON", "AND", "OR", "NOT",
    "IN", "BETWEEN", "LIKE", "IS", "NULL", "AS",
    "ORDER", "BY", "GROUP", "HAVING", "LIMIT", "OFFSET", "DISTINCT",
    "ASC", "DESC", "UNION", "INTERSECT", "EXCEPT", "ALL", "ANY",
    "CREATE", "ALTER", "DROP", "TABLE", "DATABASE", "INDEX", "VIEW", "SCHEMA",
    "PRIMARY", "KEY", "FOREIGN", "REFERENCES", "CONSTRAINT", "UNIQUE",
    "CHECK", "DEFAULT", "CASCADE",
    "INTEGER", "INT", "SMALLINT", "BIGINT", "SERIAL", "BIGSERIAL",
    "NUMERIC", "DECIMAL", "REAL", "DOUBLE", "PRECISION", "FLOAT",
    "VARCHAR", "CHAR", "TEXT", "BOOLEAN", "BOOL",
    "DATE", "TIME", "TIMESTAMP", "TIMESTAMPTZ", "INTERVAL",
    "JSON", "JSONB", "UUID", "BYTEA", "ARRAY",
    "COUNT", "SUM", "AVG", "MIN", "MAX", "COALESCE", "NULLIF",
    "CONCAT", "SUBSTRING", "LENGTH", "UPPER", "LOWER", "TRIM",
    "NOW", "CURRENT_DATE", "CURRENT_TIME", "CURRENT_TIMESTAMP",
    "CASE", "WHEN", "THEN", "ELSE", "END", "EXISTS",
    "BEGIN", "COMMIT", "ROLLBACK", "TRANSACTION" ].map String.data

/-- Characters matched by the whitespace arm of the tokenizer's `match`
(src/syntax.rs, first arm of `tokenize`). -/
def isWsStart (c : Char) : Bool :=
  c == ' ' || c == '\t' || c == '\n' || c == '\r'

/-- Continuation predicate of a whitespace run (Rust `char::is_whitespace`,
modelled on ASCII whitespace). -/
def isWsCont (c : Char) : Bool := c.isWhitespace

/-- Identifier continuation characters (Rust `is_alphanumeric() || '_'`,
modelled on ASCII). -/
def isIdentCont (c : Char) : Bool := c.isAlphanum || c == '_'

/-- Characters of the operator arm of the tokenizer (src/syntax.rs). -/
def isOpChar (c : Char) : Bool :=
  c == '=' || c == '>' || c == '<' || c == '!' || c == '+' || c == '-' ||
  c == '*' || c == '/' || c == '%' || c == '|' || c == '&'

/-- Characters that form their own single-character Punctuation token
(src/syntax.rs). -/
def isSinglePunct (c : Char) : Bool :=
  c == '(' || c == ')' || c == ',' || c == ';' || c == '.'

/-- Character-wise upper-casing, the ASCII model of Rust
`str::to_uppercase`. -/
def charsToUpper (l : List Char) : List Char := l.map Char.toUpper

/-- String-literal scanner of the tokenizer (src/syntax.rs, the `'\''` arm):
consumes characters after the opening quote up to and including the first
unescaped closing quote, or to end of input. Returns the consumed text and
the remaining input. -/
def scanStr : Bool → List Char → List Char × List Char
  | _, [] => ([], [])
  | escaped, c :: rest =>
    if escaped then (c :: (scanStr false rest).1, (scanStr false rest).2)
    else if c == '\\' then (c :: (scanStr true rest).1, (scanStr true rest).2)
    else if c == '\'' then ([c], rest)
    else (c :: (scanStr false rest).1, (scanStr false rest).2)

/-- Number scanner of the tokenizer (src/syntax.rs, the digit arm): consumes
ASCII digits and at most one `.` after the leading digit. -/
def scanNum : Bool → List Char → List Char × List Char
  | _, [] => ([], [])
  | hasDot, c :: rest =>
    if c.isDigit then (c :: (scanNum hasDot rest).1, (scanNum hasDot rest).2)
    else if c == '.' && !hasDot then (c :: (scanNum true rest).1, (scanNum true rest).2)
    else ([], c :: rest)

theorem scanStr_append (e : Bool) (l : List Char) :
    (scanStr e l).1 ++ (scanStr e l).2 = l := by
  induction l generalizing e with
  | nil => rfl
  | cons c rest ih =>
    simp only [scanStr]
    split
    · simpa using ih false
    · split
      · simpa using ih true
      · split
        · simp
        · simpa using ih false

theorem scanStr_rest_le (e : Bool) (l : List Char) :
    (scanStr e l).2.length ≤ l.length := by
  induction l generalizing e with
  | nil => simp [scanStr]
  | cons c rest ih =>
    simp only [scanStr]
    split
    · exact le_trans (ih false) (Nat.le_succ _)
    · split
      · exact le_trans (ih true) (Nat.le_succ _)
      · split
        · simp
        · exact le_trans (ih false) (Nat.le_succ _)

theorem scanNum_append (d : Bool) (l : List Char) :
    (scanNum d l).1 ++ (scanNum d l).2 = l := by
  induction l generalizing d with
  | nil => rfl
  | cons c rest ih =>
    simp only [scanNum]
    split
    · simpa using ih d
    · split
      · simpa using ih true
      · simp

theorem scanNum_rest_le (d : Bool) (l : List Char) :
    (scanNum d l).2.length ≤ l.length := by
  induction l generalizing d with
  | nil => simp [scanNum]
  | cons c rest ih =>
    simp only [scanNum]
    split
    · exact le_trans (ih d) (Nat.le_succ _)
    · split
      · exact le_trans (ih true) (Nat.le_succ _)
      · simp

theorem length_dropWhile_le {α : Type} (p : α → Bool) (l : List α) :
    (l.dropWhile p).length ≤ l.length := by
  induction l with
  | nil => simp
  | cons c rest ih =>
    simp only [List.dropWhile]
    split
    · exact le_trans ih (Nat.le_succ _)
    · simp

/-- The tokenizer (src/syntax.rs, `SqlHighlighter::tokenize`). Branches are
in the order of the Rust `match` arms; each consumes at least the leading
character. -/
def tokenize : List Char → List Token
  | [] => []
  | c :: rest =>
    if isWsStart c then
      Token.mk .Whitespace (c :: rest.takeWhile isWsCont) ::
        tokenize (rest.dropWhile isWsCont)
    else if c == '\'' then
      Token.mk .String (c :: (scanStr false rest).1) :: tokenize (scanStr false rest).2
    else if c == '-' && rest.head? == some '-' then
      match rest with
      | [] => []
      | d :: rest2 =>
        Token.mk .Comment (c :: d :: rest2.takeWhile (fun x => x != '\n')) ::
          tokenize (rest2.dropWhile (fun x => x != '\n'))
    else if c.isDigit then
      Token.mk .Number (c :: (scanNum false rest).1) :: tokenize (scanNum false rest).2
    else if isOpChar c then
      match rest with
      | [] => Token.mk .Operator [c] :: tokenize []
      | n :: rest2 =>
        if (c == '>' || c == '<' || c == '!') && (n == '=' || n == '>') then
          Token.mk .Operator [c, n] :: tokenize rest2
        else
          Token.mk .Operator [c] :: tokenize (n :: rest2)
    else if isSinglePunct c then
      Token.mk .Punctuation [c] :: tokenize rest
    else if c.isAlpha || c == '_' then
      Token.mk
        (if sqlKeywords.contains (charsToUpper (c :: rest.takeWhile isIdentCont)) then
          TokenType.Keyword
        else TokenType.Identifier)
        (c :: rest.takeWhile isIdentCont) ::
        tokenize (rest.dropWhile isIdentCont)
    else
      Token.mk .Punctuation [c] :: tokenize rest
termination_by l => l.length
decreasing_by
  all_goals simp only [List.length_cons]
  all_goals first
    | exact Nat.lt_succ_of_le (length_dropWhile_le _ _)
    | exact Nat.lt_succ_of_le (scanStr_rest_le _ _)
    | exact Nat.lt_succ_of_le (scanNum_rest_le _ _)
    | exact Nat.lt_succ_of_le (le_trans (length_dropWhile_le _ _) (Nat.le_succ _))
    | omega

/-- Concatenation of all token texts, in order. -/
def tokensText (ts : List Token) : List Char := (ts.map Token.text).flatten

theorem tokensText_nil : tokensText [] = [] := rfl

theorem tokensText_cons (t : Token) (ts : List Token) :
    tokensText (t :: ts) = t.text ++ tokensText ts := by
  simp [tokensText]

/-- C1: for every input string, concatenating the text fields of all tokens
returned by `tokenize`, in order, yields exactly the input — no character is
dropped, duplicated, or reordered. -/
theorem tokenize_roundtrip (s : List Char) : tokensText (tokenize s) = s := by
  induction s using tokenize.induct with
  | case1 =>
    rw [tokenize.eq_def]
    rfl
  | case2 d rest2 h ih =>
    rw [tokenize.eq_def]
    simp [h, tokensText_cons, ih, List.takeWhile_append_dropWhile]
  | case3 d rest2 h1 h2 ih =>
    have hd : d = '\'' := by simpa using h2
    subst hd
    rw [tokenize.eq_def]
    have hw : isWsStart '\'' = false := by decide
    simp [hw, tokensText_cons, ih, scanStr_append]
  | case4 d h1 h2 h3 =>
    simp at h3
  | case5 d h1 h2 d1 rest2 h3 ih =>
    have hc : d = '-' ∧ d1 = '-' := by simpa using h3
    obtain ⟨hd, hd1⟩ := hc
    subst hd
    subst hd1
    rw [tokenize.eq_def]
    have hw : isWsStart '-' = false := by decide
    have hq : ¬(('-' : Char) = '\'') := by decide
    simp [hw, hq, tokensText_cons, ih, List.takeWhile_append_dropWhile]
  | case6 d rest2 h1 h2 h3 h4 ih =>
    have h2' : ¬(d = '\'') := by simpa using h2
    have hcom : ¬(d = '-' ∧ rest2.head? = some '-') := fun hcc => h3 (by simp [hcc.1, hcc.2])
    rw [tokenize.eq_def]
    simp [h1, h2', hcom, h4, tokensText_cons, ih, scanNum_append]
  | case7 d h1 h2 h3 h4 h5 ih =>
    have h2' : ¬(d = '\'') := by simpa using h2
    rw [tokenize.eq_def]
    simp [h1, h2', h3, h4, tokensText_cons, ih]
  | case8 d h1 h2 h3 h4 d1 rest2 hm hc ih =>
    have h2' : ¬(d = '\'') := by simpa using h2
    have hm' : ((d = '>' ∨ d = '<') ∨ d = '!') ∧ (d1 = '=' ∨ d1 = '>') := by simpa using hm
    have hcom : ¬(d = '-' ∧ d1 = '-') := by
      intro hcc
      apply hc
      simp [hcc.1, hcc.2]
    rw [tokenize.eq_def]
    simp [h1, h2', hcom, h3, h4, hm', tokensText_cons, ih]
  | case9 d h1 h2 h3 h4 d1 rest2 hm hc ih =>
    have h2' : ¬(d = '\'') := by simpa using h2
    have hm' : ¬(((d = '>' ∨ d = '<') ∨ d = '!') ∧ (d1 = '=' ∨ d1 = '>')) := by
      intro hcc
      apply hm
      simp only [Bool.and_eq_true, Bool.or_eq_true, beq_iff_eq]
      tauto
    have hcom : ¬(d = '-' ∧ d1 = '-') := by
      intro hcc
      apply hc
      simp [hcc.1, hcc.2]
    rw [tokenize.eq_def]
    simp [h1, h2', hcom, h3, h4, hm', tokensText_cons, ih]
  | case10 d rest2 h1 h2 h3 h4 h5 h6 ih =>
    have h2' : ¬(d = '\'') := by simpa using h2
    have hcom : ¬(d = '-' ∧ rest2.head? = some '-') := fun hcc => h3 (by simp [hcc.1, hcc.2])
    rw [tokenize.eq_def]
    simp [h1, h2', hcom, h4, h5, h6, tokensText_cons, ih]
  | case11 d rest2 h1 h2 h3 h4 h5 h6 h7 ih =>
    have h2' : ¬(d = '\'') := by simpa using h2
    have hcom : ¬(d = '-' ∧ rest2.head? = some '-') := fun hcc => h3 (by simp [hcc.1, hcc.2])
    have h7' : d.isAlpha = true ∨ d = '_' := by simpa using h7
    rw [tokenize.eq_def]
    simp [h1, h2', hcom, h4, h5, h6, h7', tokensText_cons, ih,
      List.takeWhile_append_dropWhile]
  | case12 d rest2 h1 h2 h3 h4 h5 h6 h7 ih =>
    have h2' : ¬(d = '\'') := by simpa using h2
    have hcom : ¬(d = '-' ∧ rest2.head? = some '-') := fun hcc => h3 (by simp [hcc.1, hcc.2])
    have h7' : ¬(d.isAlpha = true ∨ d = '_') := by simpa using h7
    rw [tokenize.eq_def]
    simp [h1, h2', hcom, h4, h5, h6, h7', tokensText_cons, ih]

/-! ### Statement extractor (src/app.rs, `App::extract_current_query`) -/

/-- Byte length of a string under UTF-8, the model of Rust `str::len`. -/
def byteLen (l : List Char) : Nat := (l.map Char.utf8Size).sum

/-- Pairs of (UTF-8 byte offset, character) starting at a given offset. -/
def charIndicesAux (off : Nat) : List Char → List (Nat × Char)
  | [] => []
  | c :: rest => (off, c) :: charIndicesAux (off + c.utf8Size) rest

/-- Pairs of (UTF-8 byte offset, character), the model of Rust
`str::char_indices`. -/
def charIndices (l : List Char) : List (Nat × Char) := charIndicesAux 0 l

/-- Slice of a string between two byte offsets, keeping the characters whose
offset lies in `[a, b)`; the model of Rust `&s[a..b]` at the character
boundaries used by the statement extractor. -/
def byteSlice (l : List Char) (a b : Nat) : List Char :=
  ((charIndices l).filter (fun p => decide (a ≤ p.1) && decide (p.1 < b))).map Prod.snd

/-- Whitespace trim at both ends, the model of Rust `str::trim` (ASCII
whitespace). -/
def rustTrim (l : List Char) : List Char :=
  ((l.dropWhile Char.isWhitespace).reverse.dropWhile Char.isWhitespace).reverse

/-- Byte offsets of all `;` characters, the `semicolons` vector of
`extract_current_query` (src/app.rs). -/
def semicolonPositions (text : List Char) : List Nat :=
  ((charIndices text).filter (fun p => p.2 == ';')).map Prod.fst

/-- Statement extractor (src/app.rs, `App::extract_current_query`): `text`
is the editor buffer `query_input`, `cursor` is `query_cursor`. -/
def extractCurrentQuery (text : List Char) (cursor : Nat) : List Char :=
  if text = [] then []
  else if semicolonPositions text = [] then rustTrim text
  else
    rustTrim (byteSlice text
      ((((semicolonPositions text).reverse.find? (fun pos => decide (pos < cursor))).map
          (· + 1)).getD 0)
      (((semicolonPositions text).find? (fun pos => decide (cursor ≤ pos))).getD
        (byteLen text)))

/-- Statement extraction as the specification words it: the start is one past
the last `;` at a position strictly less than the cursor (0 if none precede
it); the end is the first `;` at a position at or after the cursor (end of
text if none); a text without `;` is returned whole; the result is trimmed. -/
def specExtractCurrent (text : List Char) (cursor : Nat) : List Char :=
  if semicolonPositions text = [] then rustTrim text
  else
    rustTrim (byteSlice text
      ((((semicolonPositions text).filter (fun pos => decide (pos < cursor))).getLast?.map
          (· + 1)).getD 0)
      ((((semicolonPositions text).filter (fun pos => decide (cursor ≤ pos))).head?).getD
        (byteLen text)))

theorem find?_eq_head?_filter {α : Type} (p : α → Bool) (l : List α) :
    l.find? p = (l.filter p).head? := by
  induction l with
  | nil => rfl
  | cons c rest ih =>
    rw [List.find?_cons, List.filter_cons]
    cases h : p c with
    | true => simp
    | false => simpa using ih

theorem filter_reverse_eq {α : Type} (p : α → Bool) (l : List α) :
    l.reverse.filter p = (l.filter p).reverse := by
  induction l with
  | nil => rfl
  | cons c rest ih =>
    by_cases h : p c <;> simp [List.filter_append, List.filter_cons, h, ih]

theorem find?_reverse_eq_getLast?_filter {α : Type} (p : α → Bool) (l : List α) :
    l.reverse.find? p = (l.filter p).getLast? := by
  rw [find?_eq_head?_filter, filter_reverse_eq, List.head?_reverse]

/-- C2: the statement extractor returns the trimmed slice from one past the
last `;` strictly before the cursor (or 0) up to the first `;` at or after
the cursor (or end of text); a text without `;` is returned whole, trimmed;
and for "SELECT 1; SELECT 2" with the cursor at the semicolon's index it
returns "SELECT 1". -/
theorem extractCurrentQuery_spec :
    (∀ (text : List Char) (cursor : Nat),
      extractCurrentQuery text cursor = specExtractCurrent text cursor) ∧
    extractCurrentQuery "SELECT 1; SELECT 2".data 8 = "SELECT 1".data := by
  constructor
  · intro text cursor
    unfold extractCurrentQuery specExtractCurrent
    by_cases ht : text = []
    · subst ht
      simp [semicolonPositions, charIndices, charIndicesAux, rustTrim]
    · simp only [ht, if_false]
      by_cases hs : semicolonPositions text = []
      · simp [hs]
      · simp only [hs, if_false]
        rw [find?_reverse_eq_getLast?_filter, find?_eq_head?_filter]
  · rfl

theorem mem_of_mem_dropWhile {α : Type} (p : α → Bool) (l : List α) (x : α)
    (h : x ∈ l.dropWhile p) : x ∈ l := by
  induction l with
  | nil => simpa using h
  | cons c rest ih =>
    rw [List.dropWhile_cons] at h
    by_cases hp : p c
    · simp only [hp, if_true] at h
      exact List.mem_cons_of_mem _ (ih h)
    · simp only [hp, if_false] at h
      exact h

theorem mem_rustTrim {l : List Char} {x : Char} (h : x ∈ rustTrim l) : x ∈ l := by
  unfold rustTrim at h
  rw [List.mem_reverse] at h
  have h1 := mem_of_mem_dropWhile _ _ _ h
  rw [List.mem_reverse] at h1
  exact mem_of_mem_dropWhile _ _ _ h1

theorem mem_charIndicesAux_le (off : Nat) (l : List Char) :
    ∀ p ∈ charIndicesAux off l, off ≤ p.1 := by
  induction l generalizing off with
  | nil => simp [charIndicesAux]
  | cons c rest ih =>
    intro p hp
    rw [charIndicesAux, List.mem_cons] at hp
    rcases hp with h | h
    · simp [h]
    · exact le_trans (Nat.le_add_right _ _) (ih _ p h)

theorem charIndicesAux_pairwise (off : Nat) (l : List Char) :
    (charIndicesAux off l).Pairwise (fun a b => a.1 < b.1) := by
  induction l generalizing off with
  | nil => simp [charIndicesAux]
  | cons c rest ih =>
    rw [charIndicesAux]
    refine List.Pairwise.cons ?_ (ih _)
    intro q hq
    have h1 := mem_charIndicesAux_le _ _ q hq
    have h2 : 0 < c.utf8Size := Char.utf8Size_pos c
    simp only
    omega

theorem semicolonPositions_pairwise (text : List Char) :
    (semicolonPositions text).Pairwise (· < ·) := by
  unfold semicolonPositions charIndices
  rw [List.pairwise_map]
  exact (charIndicesAux_pairwise 0 text).filter _

theorem mem_charIndicesAux_of_mem (off : Nat) (l : List Char) (c : Char)
    (h : c ∈ l) : ∃ o, (o, c) ∈ charIndicesAux off l := by
  induction l generalizing off with
  | nil => simp at h
  | cons d rest ih =>
    rw [List.mem_cons] at h
    rcases h with h | h
    · exact ⟨off, by simp [charIndicesAux, h]⟩
    · obtain ⟨o, ho⟩ := ih (off + d.utf8Size) h
      exact ⟨o, by simp [charIndicesAux, ho]⟩

theorem mem_byteSlice {l : List Char} {a b : Nat} {x : Char}
    (h : x ∈ byteSlice l a b) :
    ∃ off, (off, x) ∈ charIndices l ∧ a ≤ off ∧ off < b := by
  unfold byteSlice at h
  rw [List.mem_map] at h
  obtain ⟨p, hp, hpx⟩ := h
  rw [List.mem_filter] at hp
  refine ⟨p.1, ?_, ?_, ?_⟩
  · rw [show (p.1, x) = p by rw [← hpx]]
    exact hp.1
  · have := hp.2
    simp only [Bool.and_eq_true, decide_eq_true_eq] at this
    exact this.1
  · have := hp.2
    simp only [Bool.and_eq_true, decide_eq_true_eq] at this
    exact this.2

theorem find?_sorted_min {l : List Nat} (hl : l.Pairwise (· < ·)) {p : Nat → Bool}
    {m : Nat} (hm : l.find? p = some m) : ∀ x ∈ l, p x = true → m ≤ x := by
  induction l with
  | nil => simp at hm
  | cons c rest ih =>
    rw [List.find?_cons] at hm
    intro x hx hpx
    rw [List.mem_cons] at hx
    by_cases hc : p c
    · simp only [hc, if_true, Option.some.injEq] at hm
      subst hm
      rcases hx with rfl | hx
      · exact le_refl _
      · exact le_of_lt ((List.pairwise_cons.mp hl).1 x hx)
    · simp only [hc, if_false] at hm
      rcases hx with rfl | hx
      · exact absurd hpx (by simpa using hc)
      · exact ih (List.pairwise_cons.mp hl).2 hm x hx hpx

theorem find?_sorted_max {l : List Nat} (hl : l.Pairwise (fun a b => b < a))
    {p : Nat → Bool} {m : Nat} (hm : l.find? p = some m) :
    ∀ x ∈ l, p x = true → x ≤ m := by
  induction l with
  | nil => simp at hm
  | cons c rest ih =>
    rw [List.find?_cons] at hm
    intro x hx hpx
    rw [List.mem_cons] at hx
    by_cases hc : p c
    · simp only [hc, if_true, Option.some.injEq] at hm
      subst hm
      rcases hx with rfl | hx
      · exact le_refl _
      · exact le_of_lt ((List.pairwise_cons.mp hl).1 x hx)
    · simp only [hc, if_false] at hm
      rcases hx with rfl | hx
      · exact absurd hpx (by simpa using hc)
      · exact ih (List.pairwise_cons.mp hl).2 hm x hx hpx

theorem extractCurrentQuery_semicolon_not_mem (text : List Char) (cursor : Nat) :
    ';' ∉ extractCurrentQuery text cursor := by
  unfold extractCurrentQuery
  by_cases ht : text = []
  · simp [ht]
  · simp only [ht, if_false]
    by_cases hs : semicolonPositions text = []
    · simp only [hs, if_true]
      intro hmem
      obtain ⟨o, ho⟩ := mem_charIndicesAux_of_mem 0 text ';' (mem_rustTrim hmem)
      have : o ∈ semicolonPositions text := by
        unfold semicolonPositions charIndices
        rw [List.mem_map]
        exact ⟨(o, ';'), by rw [List.mem_filter]; exact ⟨ho, by simp⟩, rfl⟩
      rw [hs] at this
      simp at this
    · simp only [hs, if_false]
      intro hmem
      obtain ⟨off, hoci, hge, hlt⟩ := mem_byteSlice (mem_rustTrim hmem)
      have hoff : off ∈ semicolonPositions text := by
        unfold semicolonPositions
        rw [List.mem_map]
        exact ⟨(off, ';'), by rw [List.mem_filter]; exact ⟨hoci, by simp⟩, rfl⟩
      rcases Nat.lt_or_ge off cursor with hc | hc
      · have hne : (semicolonPositions text).reverse.find?
            (fun pos => decide (pos < cursor)) ≠ none := by
          intro hnone
          rw [List.find?_eq_none] at hnone
          exact absurd (by simpa using hc)
            (by simpa using hnone off (List.mem_reverse.mpr hoff))
        obtain ⟨m, hm⟩ := Option.ne_none_iff_exists'.mp hne
        have hmax := find?_sorted_max
          (by rw [List.pairwise_reverse]; exact semicolonPositions_pairwise text)
          hm off (List.mem_reverse.mpr hoff) (by simpa using hc)
        rw [hm] at hge
        simp at hge
        omega
      · have hne : (semicolonPositions text).find?
            (fun pos => decide (cursor ≤ pos)) ≠ none := by
          intro hnone
          rw [List.find?_eq_none] at hnone
          exact absurd (by simpa using hc) (by simpa using hnone off hoff)
        obtain ⟨m, hm⟩ := Option.ne_none_iff_exists'.mp hne
        have hmin := find?_sorted_min (semicolonPositions_pairwise text)
          hm off hoff (by simpa using hc)
        rw [hm] at hlt
        simp at hlt
        omega

/-- C10: for every text and cursor, the string returned by the statement
extractor contains no `;` character. -/
theorem extractCurrentQuery_no_semicolon (text : List Char) (cursor : Nat) :
    (extractCurrentQuery text cursor).contains ';' = false := by
  simpa using extractCurrentQuery_semicolon_not_mem text cursor

/-! ### Formatter (src/formatter.rs, `SqlFormatter`) -/

/-- Keyword casing configuration (src/formatter.rs, `KeywordCase`). -/
inductive KeywordCase where
  | Upper
  | Lower
deriving DecidableEq, Repr

/-- Formatter configuration (src/formatter.rs, `SqlFormatter`). -/
structure SqlFormatter where
  indentSize : Nat
  keywordCase : KeywordCase
deriving Repr

/-- Default formatter (src/formatter.rs, `SqlFormatter::new`). -/
def SqlFormatter.mkNew : SqlFormatter := ⟨4, .Upper⟩

/-- Indentation string (src/formatter.rs, `SqlFormatter::indent`). The level
counter is carried as an `Int` so that the floor-at-zero behaviour of the
`usize` counter is visible in statements; it never goes negative (claim C9),
so `toNat` is faithful. -/
def SqlFormatter.indent (f : SqlFormatter) (level : Int) : List Char :=
  List.replicate (f.indentSize * level.toNat) ' '

/-- Keyword case application (src/formatter.rs,
`SqlFormatter::apply_keyword_case`). -/
def SqlFormatter.applyKeywordCase (f : SqlFormatter) (kw : List Char) : List Char :=
  match f.keywordCase with
  | .Upper => charsToUpper kw
  | .Lower => kw.map Char.toLower

/-- Layout state threaded through the token loop of `format`
(src/formatter.rs): the output built so far, the `indent_level` counter and
the three flags. -/
structure FmtState where
  result : List Char
  indentLevel : Int
  afterSelect : Bool
  afterMajorClause : Bool
  firstColumn : Bool
deriving Repr

/-- Initial layout state of `format` (src/formatter.rs, lines 26-30). -/
def initFmtState : FmtState := ⟨[], 0, false, false, true⟩

/-- Test whether the output ends with a given character (Rust
`String::ends_with(char)`). -/
def endsWithChar (l : List Char) (c : Char) : Bool := l.getLast? == some c

/-- Major clause keywords of the formatter (src/formatter.rs, lines 41-45). -/
def majorClauses : List (List Char) :=
  ["SELECT", "FROM", "WHERE", "GROUP", "HAVING", "ORDER", "LIMIT", "OFFSET",
   "UNION", "INTERSECT", "EXCEPT"].map String.data

/-- Join-family keywords of the formatter (src/formatter.rs, lines 59-62). -/
def joinFamily : List (List Char) :=
  ["JOIN", "INNER", "LEFT", "RIGHT", "FULL", "CROSS"].map String.data

/-- Prefix test on character lists. -/
def startsWithChars : List Char → List Char → Bool
  | [], _ => true
  | _ :: _, [] => false
  | a :: xs, b :: ys => a == b && startsWithChars xs ys

/-- Substring test on character lists (Rust `str::contains`). -/
def containsChars (hay needle : List Char) : Bool :=
  (List.range (hay.length + 1)).any (fun i => startsWithChars needle (hay.drop i))

/-- Shared arm for Identifier, String and Number tokens of the `format` loop
(src/formatter.rs, lines 133-156). -/
def formatIdentLike (f : SqlFormatter) (st : FmtState) (text : List Char)
    (next? : Option Token) : FmtState :=
  let amc := if st.afterMajorClause && !endsWithChar st.result ' ' &&
      !endsWithChar st.result '\n' then false else st.afterMajorClause
  let r1 := if st.afterSelect && st.firstColumn then
      st.result ++ ['\n'] ++ f.indent (st.indentLevel + 1)
    else if !st.result.isEmpty && !endsWithChar st.result '\n' &&
        !endsWithChar st.result ' ' && !endsWithChar st.result '(' then
      st.result ++ [' ']
    else st.result
  let fc := if st.afterSelect && st.firstColumn then false else st.firstColumn
  let asel := if st.afterSelect &&
      (match next? with
       | some t => t.tokenType == TokenType.Keyword
       | none => false) then false else st.afterSelect
  ⟨r1 ++ text, st.indentLevel, asel, amc, fc⟩

/-- One step of the `format` token loop (src/formatter.rs, lines 32-175):
processes the current token given the lookahead token. The unused
`prev_token` binding of the source is dropped. -/
def formatStep (f : SqlFormatter) (st : FmtState) (tok : Token)
    (next? : Option Token) : FmtState :=
  match tok.tokenType with
  | .Keyword =>
    let ku := charsToUpper tok.text
    if majorClauses.contains ku then
      let r1 := if !st.result.isEmpty && !endsWithChar st.result '\n' then
          st.result ++ ['\n']
        else st.result
      { result := r1 ++ f.indent st.indentLevel ++ f.applyKeywordCase ku
        indentLevel := st.indentLevel
        afterSelect := if ku = "SELECT".data then true else st.afterSelect
        afterMajorClause := true
        firstColumn := if ku = "SELECT".data then true else st.firstColumn }
    else if joinFamily.contains ku then
      let newline := containsChars ku "JOIN".data ||
        (match next? with
         | some t => containsChars (charsToUpper t.text) "JOIN".data
         | none => false)
      let r1 := if newline then
          (if !endsWithChar st.result '\n' then st.result ++ ['\n'] else st.result) ++
            f.indent st.indentLevel
        else st.result ++ [' ']
      { st with result := r1 ++ f.applyKeywordCase ku }
    else if ku = "ON".data then
      { st with result := st.result ++ ['\n'] ++ f.indent (st.indentLevel + 1) ++
          f.applyKeywordCase ku }
    else if ku = "AND".data ∨ ku = "OR".data then
      { st with result := st.result ++ ['\n'] ++ f.indent (st.indentLevel + 1) ++
          f.applyKeywordCase ku }
    else if ku = "BY".data then
      { st with result := st.result ++ [' '] ++ f.applyKeywordCase ku }
    else
      let r1 := if st.afterMajorClause && !endsWithChar st.result ' ' &&
          !endsWithChar st.result '\n' then st.result ++ [' '] else st.result
      { st with result := r1 ++ f.applyKeywordCase ku }
  | .Punctuation =>
    if tok.text = ",".data then
      if st.afterSelect then
        { st with
          result := st.result ++ [','] ++ ['\n'] ++ f.indent (st.indentLevel + 1)
          firstColumn := false }
      else { st with result := st.result ++ [','] }
    else if tok.text = "(".data then
      { st with result := st.result ++ ['('], indentLevel := st.indentLevel + 1 }
    else if tok.text = ")".data then
      { st with
        result := st.result ++ [')']
        indentLevel := if st.indentLevel > 0 then st.indentLevel - 1 else st.indentLevel }
    else if tok.text = ";".data then
      { st with result := st.result ++ [';'] }
    else
      { st with result := st.result ++ tok.text }
  | .Whitespace => st
  | .Identifier => formatIdentLike f st tok.text next?
  | .String => formatIdentLike f st tok.text next?
  | .Number => formatIdentLike f st tok.text next?
  | .Operator =>
    let r1 := if !endsWithChar st.result ' ' && !st.result.isEmpty then
        st.result ++ [' ']
      else st.result
    { st with result := r1 ++ tok.text }
  | .Comment => { st with result := st.result ++ tok.text }

/-- The token loop of `format`: each token is processed with the following
token as lookahead. -/
def formatLoop (f : SqlFormatter) : List Token → FmtState → FmtState
  | [], st => st
  | t :: rest, st => formatLoop f rest (formatStep f st t rest.head?)

/-- The formatter (src/formatter.rs, `SqlFormatter::format`): tokenize, run
the layout loop, trim. -/
def SqlFormatter.format (f : SqlFormatter) (sql : List Char) : List Char :=
  rustTrim (formatLoop f (tokenize sql) initFmtState).result

/-- Every layout state reached during the token loop, in order: the initial
state and the state after each token. -/
def formatStates (f : SqlFormatter) : List Token → FmtState → List FmtState
  | [], st => [st]
  | t :: rest, st => st :: formatStates f rest (formatStep f st t rest.head?)

theorem formatStep_indentLevel_nonneg (f : SqlFormatter) (st : FmtState)
    (tok : Token) (next? : Option Token) (h : 0 ≤ st.indentLevel) :
    0 ≤ (formatStep f st tok next?).indentLevel := by
  unfold formatStep formatIdentLike
  cases tok.tokenType <;> simp only <;> repeat' split
  all_goals simp_all
  all_goals omega

theorem formatStates_indentLevel_nonneg (f : SqlFormatter) (ts : List Token)
    (st : FmtState) (h : 0 ≤ st.indentLevel) :
    ∀ s ∈ formatStates f ts st, 0 ≤ s.indentLevel := by
  induction ts generalizing st with
  | nil =>
    intro s hs
    rw [formatStates] at hs
    rcases List.mem_cons.mp hs with rfl | hs
    · exact h
    · simp at hs
  | cons t rest ih =>
    intro s hs
    rw [formatStates] at hs
    rcases List.mem_cons.mp hs with rfl | hs
    · exact h
    · exact ih _ (formatStep_indentLevel_nonneg f st t rest.head? h) s hs

/-- C9: during `format` of any input the `indent_level` counter is
incremented by each "(" token, decremented by each ")" token only when it is
positive, and therefore remains at least 0 at every intermediate step of the
token loop. -/
theorem format_indentLevel_invariant :
    (∀ (f : SqlFormatter) (st : FmtState) (next? : Option Token),
      (formatStep f st (Token.mk .Punctuation "(".data) next?).indentLevel =
        st.indentLevel + 1 ∧
      (formatStep f st (Token.mk .Punctuation ")".data) next?).indentLevel =
        (if 0 < st.indentLevel then st.indentLevel - 1 else st.indentLevel)) ∧
    (∀ sql : List Char,
      (formatStates SqlFormatter.mkNew (tokenize sql) initFmtState).all
        (fun s => decide (0 ≤ s.indentLevel)) = true) := by
  constructor
  · intro f st next?
    constructor
    · rfl
    · rfl
  · intro sql
    rw [List.all_eq_true]
    intro s hs
    have := formatStates_indentLevel_nonneg SqlFormatter.mkNew (tokenize sql)
      initFmtState (by simp [initFmtState]) s hs
    simpa using this

/-- Split a character list into its lines at newline characters. -/
def splitLinesAux : List Char → List Char → List (List Char)
  | [], acc => [acc.reverse]
  | c :: rest, acc =>
    if c = '\n' then acc.reverse :: splitLinesAux rest []
    else splitLinesAux rest (c :: acc)

/-- Lines of a character list. -/
def splitLines (l : List Char) : List (List Char) := splitLinesAux l []

theorem tokenize_fmtExample :
    tokenize "select id,name from users where id=1".data =
      [Token.mk .Keyword "select".data, Token.mk .Whitespace " ".data,
       Token.mk .Identifier "id".data, Token.mk .Punctuation ",".data,
       Token.mk .Identifier "name".data, Token.mk .Whitespace " ".data,
       Token.mk .Keyword "from".data, Token.mk .Whitespace " ".data,
       Token.mk .Identifier "users".data, Token.mk .Whitespace " ".data,
       Token.mk .Keyword "where".data, Token.mk .Whitespace " ".data,
       Token.mk .Identifier "id".data, Token.mk .Operator "=".data,
       Token.mk .Number "1".data] := by
  simp [tokenize.eq_def, isWsStart, isWsCont, isIdentCont, isOpChar, isSinglePunct,
    charsToUpper, sqlKeywords, scanStr, scanNum]

theorem format_fmtExample :
    SqlFormatter.mkNew.format "select id,name from users where id=1".data =
      "SELECT\n    id,\n    name\nFROM users\nWHERE id = 1".data := by
  unfold SqlFormatter.format
  rw [tokenize_fmtExample]
  rfl

/-- C7 counterexample: the formatted output of the example query has exactly
five lines, the last line being "WHERE id = 1"; there is no line consisting
of "WHERE" alone, so the condition is not placed on its own deeper-indented
line as the claim states. -/
theorem format_clause_placement_cex :
    splitLines (SqlFormatter.mkNew.format "select id,name from users where id=1".data) =
      ["SELECT".data, "    id,".data, "    name".data, "FROM users".data,
       "WHERE id = 1".data] ∧
    "WHERE".data ∉
      splitLines (SqlFormatter.mkNew.format "select id,name from users where id=1".data) := by
  rw [format_fmtExample]
  constructor
  · rfl
  · decide

/-- C7 (amended): `format "select id,name from users where id=1"` yields the
lines `SELECT`, `    id,`, `    name`, `FROM users`, `WHERE id = 1` in order:
the WHERE condition follows on the same line as WHERE, separated by spaces,
not on a deeper-indented line of its own. -/
theorem format_clause_placement :
    splitLines (SqlFormatter.mkNew.format "select id,name from users where id=1".data) =
      ["SELECT".data, "    id,".data, "    name".data, "FROM users".data,
       "WHERE id = 1".data] := by
  rw [format_fmtExample]
  rfl

theorem tokenize_offset_split :
    tokenize "off set".data =
      [Token.mk .Identifier "off".data, Token.mk .Whitespace " ".data,
       Token.mk .Keyword "set".data] := by
  simp [tokenize.eq_def, isWsStart, isWsCont, isIdentCont, isOpChar, isSinglePunct,
    charsToUpper, sqlKeywords, scanStr, scanNum]

theorem tokenize_offset_joined :
    tokenize "offSET".data = [Token.mk .Keyword "offSET".data] := by
  simp [tokenize.eq_def, isWsStart, isWsCont, isIdentCont, isOpChar, isSinglePunct,
    charsToUpper, sqlKeywords, scanStr, scanNum]

/-- C4 counterexample: the formatter is not idempotent. Formatting "off set"
appends the upper-cased keyword SET directly after the identifier "off",
producing "offSET"; re-formatting tokenizes "offSET" as the single keyword
OFFSET, producing "OFFSET" ≠ "offSET". -/
theorem format_idempotent_cex :
    SqlFormatter.mkNew.format (SqlFormatter.mkNew.format "off set".data) ≠
      SqlFormatter.mkNew.format "off set".data ∧
    SqlFormatter.mkNew.format "off set".data = "offSET".data ∧
    SqlFormatter.mkNew.format "offSET".data = "OFFSET".data := by
  have h1 : SqlFormatter.mkNew.format "off set".data = "offSET".data := by
    unfold SqlFormatter.format
    rw [tokenize_offset_split]
    rfl
  have h2 : SqlFormatter.mkNew.format "offSET".data = "OFFSET".data := by
    unfold SqlFormatter.format
    rw [tokenize_offset_joined]
    rfl
  refine ⟨?_, h1, h2⟩
  rw [h1, h2]
  decide

theorem tokenize_fmtExample_output :
    tokenize "SELECT\n    id,\n    name\nFROM users\nWHERE id = 1".data =
      [Token.mk .Keyword "SELECT".data, Token.mk .Whitespace "\n    ".data,
       Token.mk .Identifier "id".data, Token.mk .Punctuation ",".data,
       Token.mk .Whitespace "\n    ".data, Token.mk .Identifier "name".data,
       Token.mk .Whitespace "\n".data, Token.mk .Keyword "FROM".data,
       Token.mk .Whitespace " ".data, Token.mk .Identifier "users".data,
       Token.mk .Whitespace "\n".data, Token.mk .Keyword "WHERE".data,
       Token.mk .Whitespace " ".data, Token.mk .Identifier "id".data,
       Token.mk .Whitespace " ".data, Token.mk .Operator "=".data,
       Token.mk .Whitespace " ".data, Token.mk .Number "1".data] := by
  simp [tokenize.eq_def, isWsStart, isWsCont, isIdentCont, isOpChar, isSinglePunct,
    charsToUpper, sqlKeywords, scanStr, scanNum]

/-- C4 (amended): `format (format s)) = format s` does not hold for every
string (see the counterexample, where formatting merges an identifier with a
following keyword into a new keyword); it does hold for the specification's
representative query "select id,name from users where id=1". -/
theorem format_idempotent_example :
    SqlFormatter.mkNew.format
        (SqlFormatter.mkNew.format "select id,name from users where id=1".data) =
      SqlFormatter.mkNew.format "select id,name from users where id=1".data := by
  rw [format_fmtExample]
  unfold SqlFormatter.format
  rw [tokenize_fmtExample_output]
  rfl

/-! ### Autocomplete engine (src/autocomplete.rs) -/

/-- Word characters of the autocomplete scanner (Rust
`is_alphanumeric() || c == '_'`, modelled on ASCII). -/
def isWordChar (c : Char) : Bool := c.isAlphanum || c == '_'

/-- Suffix test on character lists (Rust `str::ends_with`). -/
def endsWithChars (l suffix : List Char) : Bool :=
  startsWithChars suffix.reverse l.reverse

/-- Backward scan for the start of the word ending at a given character
index (src/autocomplete.rs, the `while word_start > 0` loops). Rust indexes
`chars[word_start - 1]` directly, which panics — modelled as `none` — when
that index is out of bounds. -/
def findWordStart (chars : List Char) : Nat → Option Nat
  | 0 => some 0
  | n + 1 =>
    if h : n < chars.length then
      if isWordChar (chars.get ⟨n, h⟩) then findWordStart chars n
      else some (n + 1)
    else none

/-- Current-word extraction (src/autocomplete.rs,
`AutocompleteEngine::extract_current_word`). The cursor is clamped with the
BYTE length of the text (`text.len()`), but the clamped position indexes the
CHARACTER vector, so multi-byte text can drive the first index out of
bounds; the resulting Rust panic is modelled as `none`. -/
def extractCurrentWord? (text : List Char) (cursor : Nat) :
    Option (List Char × Nat) :=
  if text.isEmpty || cursor == 0 then some ([], 0)
  else
    match findWordStart text (min cursor (byteLen text)) with
    | none => none
    | some ws => some ((text.drop ws).take (min cursor (byteLen text) - ws), ws)

/-- Dot-qualification lookup (src/autocomplete.rs,
`AutocompleteEngine::extract_table_before_dot`): `some none` means there is
no table.column pattern; the outer `none` would be a panic of the inner
backward scan, unreachable from `get_suggestions`. -/
def extractTableBeforeDot? (text : List Char) (wordStart : Nat) :
    Option (Option (List Char)) :=
  if wordStart == 0 then some none
  else if text.get? (wordStart - 1) == some '.' then
    match findWordStart text (wordStart - 1) with
    | none => none
    | some tableStart =>
      if (text.drop tableStart).take (wordStart - 1 - tableStart) = [] then some none
      else some (some ((text.drop tableStart).take (wordStart - 1 - tableStart)))
  else some none

/-- Byte-prefix of a string: Rust `&s[..k]`, which panics — modelled as
`none` — when `k` is not on a character boundary. -/
def byteTake : List Char → Nat → Option (List Char)
  | _, 0 => some []
  | [], _ + 1 => none
  | c :: rest, k + 1 =>
    if c.utf8Size ≤ k + 1 then (byteTake rest (k + 1 - c.utf8Size)).map (c :: ·)
    else none

/-- Contexts of the suggestion engine (src/autocomplete.rs, `Context`). -/
inductive Context where
  | TableName
  | ColumnName
  | General
deriving DecidableEq, Repr

/-- Context classification (src/autocomplete.rs,
`AutocompleteEngine::analyze_context`). Rust slices the query at byte
position `cursor_pos.min(query.len())`, which can panic off a character
boundary (modelled through `byteTake`). The Rust condition
`a || b && c` parses as `a || (b && c)`. -/
def analyzeContext (query : List Char) (cursorPos : Nat) : Option Context :=
  (byteTake query (min cursorPos (byteLen query))).map (fun beforeCursor =>
    if endsWithChars (charsToUpper beforeCursor) "FROM ".data ||
        (containsChars (charsToUpper beforeCursor) "FROM ".data &&
          !containsChars (charsToUpper beforeCursor) "WHERE".data) then
      Context.TableName
    else if startsWithChars "SELECT ".data (charsToUpper beforeCursor) &&
        !containsChars (charsToUpper beforeCursor) "FROM".data then
      Context.ColumnName
    else if containsChars (charsToUpper beforeCursor) "WHERE ".data ||
        containsChars (charsToUpper beforeCursor) "ON ".data then
      Context.ColumnName
    else Context.General)

/-- Suggestion kinds (src/autocomplete.rs, `SuggestionType`). -/
inductive SuggestionType where
  | Keyword
  | Table
  | Column
  | Function
deriving DecidableEq, Repr

/-- Completion suggestions (src/autocomplete.rs, `Suggestion`). -/
structure Suggestion where
  suggestionType : SuggestionType
  text : String
  description : Option String
deriving DecidableEq, Repr

/-- Autocomplete engine state (src/autocomplete.rs, `AutocompleteEngine`).
The column `HashMap` is modelled as an association list; no claim settled
here depends on hash-map iteration order or on duplicate table names. -/
structure AutocompleteEngine where
  keywords : List String
  tables : List String
  columns : List (String × List String)

/-- Engine constructor with the fixed keyword vocabulary
(src/autocomplete.rs, `AutocompleteEngine::new`). -/
def AutocompleteEngine.mkNew : AutocompleteEngine :=
  { keywords := [
      "SELECT", "FROM", "WHERE", "INSERT", "INTO", "VALUES", "UPDATE", "SET", "DELETE",
      "JOIN", "INNER JOIN", "LEFT JOIN", "RIGHT JOIN", "FULL JOIN", "CROSS JOIN",
      "ON", "AND", "OR", "NOT", "IN", "BETWEEN", "LIKE", "IS", "NULL",
      "ORDER BY", "GROUP BY", "HAVING", "LIMIT", "OFFSET",
      "DISTINCT", "AS", "ASC", "DESC",
      "CREATE", "ALTER", "DROP", "TABLE", "DATABASE", "INDEX", "VIEW",
      "PRIMARY KEY", "FOREIGN KEY", "REFERENCES", "CONSTRAINT", "UNIQUE",
      "CHECK", "DEFAULT", "AUTO_INCREMENT",
      "INTEGER", "INT", "SMALLINT", "BIGINT", "SERIAL", "BIGSERIAL",
      "NUMERIC", "DECIMAL", "REAL", "DOUBLE PRECISION", "FLOAT",
      "VARCHAR", "CHAR", "TEXT", "BOOLEAN", "BOOL",
      "DATE", "TIME", "TIMESTAMP", "TIMESTAMPTZ", "INTERVAL",
      "JSON", "JSONB", "UUID", "BYTEA",
      "COUNT", "SUM", "AVG", "MIN", "MAX",
      "CONCAT", "SUBSTRING", "LENGTH", "UPPER", "LOWER", "TRIM",
      "NOW", "CURRENT_DATE", "CURRENT_TIME", "CURRENT_TIMESTAMP",
      "CASE", "WHEN", "THEN", "ELSE", "END",
      "EXISTS", "ANY", "ALL", "UNION", "INTERSECT", "EXCEPT",
      "BEGIN", "COMMIT", "ROLLBACK", "TRANSACTION" ]
    tables := []
    columns := [] }

/-- Wholesale schema replacement (src/autocomplete.rs,
`AutocompleteEngine::update_schema`): both the table list and the column map
are rebuilt from the argument. -/
def AutocompleteEngine.updateSchema (e : AutocompleteEngine)
    (ts : List (String × List String)) : AutocompleteEngine :=
  { e with tables := ts.map Prod.fst, columns := ts }

/-- Column lookup by table name, the model of `HashMap::get`. -/
def lookupColumns (m : List (String × List String)) (k : String) :
    Option (List String) :=
  (m.find? (fun p => p.1 == k)).map Prod.snd

/-- Keyword suggestions for an upper-cased prefix (src/autocomplete.rs,
`match_keywords`); the stored keywords are already uppercase. -/
def AutocompleteEngine.matchKeywords (e : AutocompleteEngine)
    (prefixU : List Char) : List Suggestion :=
  (e.keywords.filter (fun kw => startsWithChars prefixU kw.data)).map
    (fun kw => ⟨.Keyword, kw, some "SQL Keyword"⟩)

/-- Table suggestions for an upper-cased prefix (src/autocomplete.rs,
`match_tables`). -/
def AutocompleteEngine.matchTables (e : AutocompleteEngine)
    (prefixU : List Char) : List Suggestion :=
  (e.tables.filter (fun t => startsWithChars prefixU (charsToUpper t.data))).map
    (fun t => ⟨.Table, t, some "Table"⟩)

/-- Suggestions drawn from every table's columns (src/autocomplete.rs,
`match_all_columns`). -/
def AutocompleteEngine.matchAllColumns (e : AutocompleteEngine)
    (prefixU : List Char) : List Suggestion :=
  (e.columns.map (fun tc =>
    (tc.2.filter (fun col => startsWithChars prefixU (charsToUpper col.data))).map
      (fun col => (⟨.Column, col, some ("Column in " ++ tc.1)⟩ : Suggestion)))).flatten

/-- First index at which the needle occurs in the hay (Rust `str::find` on a
substring pattern). The index is a character index; because upper-casing is
modelled character-wise, it coincides with the source's byte arithmetic on
the "FROM " pattern. -/
def findSubIdx (hay needle : List Char) : Option Nat :=
  (List.range (hay.length + 1)).find? (fun i => startsWithChars needle (hay.drop i))

/-- Accumulator loop splitting a character list into whitespace-separated
words. -/
def splitWsAux : List Char → List Char → List (List Char)
  | [], acc => if acc = [] then [] else [acc.reverse]
  | c :: rest, acc =>
    if Char.isWhitespace c then
      if acc = [] then splitWsAux rest [] else acc.reverse :: splitWsAux rest []
    else splitWsAux rest (c :: acc)

/-- Whitespace-separated words (Rust `str::split_whitespace`, ASCII
whitespace). -/
def splitWhitespace (l : List Char) : List (List Char) := splitWsAux l []

/-- Trailing trim of characters that are neither alphanumeric nor `_` (Rust
`trim_end_matches` as used in `extract_table_from_query`). -/
def trimEndNonWord (w : List Char) : List Char :=
  (w.reverse.dropWhile (fun c => !isWordChar c)).reverse

/-- Table named after the first "FROM " of the query (src/autocomplete.rs,
`extract_table_from_query`). -/
def extractTableFromQuery (query : List Char) : Option String :=
  match findSubIdx (charsToUpper query) "FROM ".data with
  | none => none
  | some i =>
    match (splitWhitespace (query.drop (i + 5))).head? with
    | some w => some (String.mk (trimEndNonWord w))
    | none => none

/-- Column suggestions preferring the table of the query's FROM clause
(src/autocomplete.rs, `match_columns`; its unused `_word_start` parameter is
dropped). -/
def AutocompleteEngine.matchColumns (e : AutocompleteEngine)
    (prefixU : List Char) (query : List Char) : List Suggestion :=
  match extractTableFromQuery query with
  | some table =>
    match lookupColumns e.columns table with
    | some cols =>
      (cols.filter (fun col => startsWithChars prefixU (charsToUpper col.data))).map
        (fun col => (⟨.Column, col, some ("Column in " ++ table)⟩ : Suggestion))
    | none => e.matchAllColumns prefixU
  | none => e.matchAllColumns prefixU

/-- Suggestion computation (src/autocomplete.rs,
`AutocompleteEngine::get_suggestions`); `none` models a Rust panic. -/
def AutocompleteEngine.getSuggestions? (e : AutocompleteEngine)
    (query : List Char) (cursorPos : Nat) : Option (List Suggestion) :=
  match extractCurrentWord? query cursorPos with
  | none => none
  | some (currentWord, wordStart) =>
    if currentWord = [] then some []
    else
      match extractTableBeforeDot? query wordStart with
      | none => none
      | some (some tableName) =>
        (match lookupColumns e.columns (String.mk tableName) with
          | some cols =>
            some (((cols.filter (fun col => currentWord.isEmpty ||
              startsWithChars (charsToUpper currentWord) (charsToUpper col.data))).map
              (fun col => (⟨.Column, col,
                some ("Column in " ++ String.mk tableName)⟩ : Suggestion))).take 10)
          | none => some (([] : List Suggestion).take 10))
      | some none =>
        match analyzeContext query wordStart with
        | none => none
        | some ctx =>
          some ((match ctx with
            | Context.TableName =>
              e.matchTables (charsToUpper currentWord) ++
                e.matchKeywords (charsToUpper currentWord)
            | Context.ColumnName =>
              e.matchColumns (charsToUpper currentWord) query ++
                e.matchKeywords (charsToUpper currentWord)
            | Context.General =>
              e.matchKeywords (charsToUpper currentWord) ++
                e.matchTables (charsToUpper currentWord) ++
                e.matchAllColumns (charsToUpper currentWord)).take 10)

/-- Engine loaded with the schema `{"users": ["id", "name"]}` through
`update_schema`. -/
def engineUsers : AutocompleteEngine :=
  AutocompleteEngine.mkNew.updateSchema [("users", ["id", "name"])]

/-- C3 counterexample: with the schema `{"users": ["id","name"]}`, calling
`get_suggestions "SELECT users.n" 13` returns the empty list — the word at
cursor 13 is empty, since the character "n" occupies positions 13..14 — and
not a single Column suggestion as claimed. -/
theorem getSuggestions_dotQualified_cex :
    engineUsers.getSuggestions? "SELECT users.n".data 13 = some [] := by rfl

/-- C3 (amended): with the schema `{"users": ["id","name"]}` and the cursor
at 14 — the end of "SELECT users.n" — `get_suggestions` returns exactly one
suggestion, the Column suggestion "name", and no keyword suggestion. -/
theorem getSuggestions_dotQualified :
    engineUsers.getSuggestions? "SELECT users.n".data 14 =
      some [⟨SuggestionType.Column, "name", some "Column in users"⟩] := by rfl

/-- C5 (code bug): `get_suggestions` is not total. On the one-character text
"é" (two UTF-8 bytes) with cursor 2 — the text's byte length, a legal cursor
position — the clamped position 2 indexes the one-element character vector
at index 1, out of bounds: Rust panics instead of returning. -/
theorem getSuggestions_multibyte_panic :
    extractCurrentWord? ['é'] 2 = none ∧
    AutocompleteEngine.mkNew.getSuggestions? ['é'] 2 = none := ⟨rfl, rfl⟩

/-- C6: every suggestion list that `get_suggestions` returns has length at
most 10; and whenever the word immediately before the cursor is empty — in
particular for empty text or cursor 0 — the returned list is empty. -/
theorem getSuggestions_cap :
    (∀ (e : AutocompleteEngine) (q : List Char) (c : Nat) (l : List Suggestion),
      e.getSuggestions? q c = some l → l.length ≤ 10) ∧
    (∀ (e : AutocompleteEngine) (q : List Char) (c ws : Nat),
      extractCurrentWord? q c = some ([], ws) → e.getSuggestions? q c = some []) ∧
    (∀ (e : AutocompleteEngine) (q : List Char), e.getSuggestions? q 0 = some []) ∧
    (∀ (e : AutocompleteEngine) (c : Nat), e.getSuggestions? [] c = some []) := by
  refine ⟨?_, ?_, ?_, ?_⟩
  · intro e q c l h
    unfold AutocompleteEngine.getSuggestions? at h
    repeat' split at h
    all_goals simp_all
    all_goals subst h
    all_goals simp [List.length_take]
  · intro e q c ws h
    unfold AutocompleteEngine.getSuggestions?
    rw [h]
    rfl
  · intro e q
    unfold AutocompleteEngine.getSuggestions? extractCurrentWord?
    simp
  · intro e c
    unfold AutocompleteEngine.getSuggestions? extractCurrentWord?
    simp

/-- C6 witness: a returned three-letter-prefix list has length at most 10,
and a cursor sitting after a non-word character yields the empty list. -/
theorem getSuggestions_cap_witness :
    ([(⟨SuggestionType.Keyword, "SELECT", some "SQL Keyword"⟩ : Suggestion)].length ≤ 10) ∧
    AutocompleteEngine.mkNew.getSuggestions? "++".data 2 = some [] ∧
    AutocompleteEngine.mkNew.getSuggestions? "a".data 0 = some [] ∧
    AutocompleteEngine.mkNew.getSuggestions? [] 5 = some [] := by
  refine ⟨?_, ?_, ?_, ?_⟩
  · exact getSuggestions_cap.1 AutocompleteEngine.mkNew "SELECT".data 3 _ (by rfl)
  · exact getSuggestions_cap.2.1 AutocompleteEngine.mkNew "++".data 2 2 (by rfl)
  · exact getSuggestions_cap.2.2.1 AutocompleteEngine.mkNew "a".data
  · exact getSuggestions_cap.2.2.2 AutocompleteEngine.mkNew 5

/-- Index of the last occurrence of the needle in the hay. -/
def lastSubIdx (hay needle : List Char) : Option Nat :=
  ((List.range (hay.length + 1)).filter
    (fun i => startsWithChars needle (hay.drop i))).getLast?

/-- Context classification as claim C8 words it: TableName when the text
contains "FROM " with no "WHERE" occurring later (after the last "FROM ");
ColumnName when it starts with "SELECT " and does not contain "FROM";
ColumnName when it contains "WHERE " or "ON "; General otherwise. -/
def claimContextOf (pre : List Char) : Context :=
  if containsChars (charsToUpper pre) "FROM ".data &&
      !containsChars ((charsToUpper pre).drop
        (((lastSubIdx (charsToUpper pre) "FROM ".data).getD 0) + 5)) "WHERE".data then
    Context.TableName
  else if startsWithChars "SELECT ".data (charsToUpper pre) &&
      !containsChars (charsToUpper pre) "FROM".data then
    Context.ColumnName
  else if containsChars (charsToUpper pre) "WHERE ".data ||
      containsChars (charsToUpper pre) "ON ".data then
    Context.ColumnName
  else Context.General

/-- C8 counterexample: for the text "WHERE A FROM C " before the word, the
code classifies ColumnName (the WHERE rule fires because the first rule
requires no "WHERE" anywhere), while the claim's rule — contains "FROM "
without a later "WHERE" — yields TableName. -/
theorem analyzeContext_cex :
    analyzeContext "WHERE A FROM C x".data 15 = some Context.ColumnName ∧
    claimContextOf "WHERE A FROM C ".data = Context.TableName ∧
    Context.ColumnName ≠ Context.TableName := by
  refine ⟨by rfl, by rfl, by decide⟩

/-- Context classification as the amended claim words it: TableName when the
upper-cased text ends with "FROM ", or contains "FROM " and does not contain
"WHERE" anywhere; otherwise ColumnName when it starts with "SELECT " and
does not contain "FROM"; otherwise ColumnName when it contains "WHERE " or
"ON "; otherwise General. -/
def amendedContextOf (pre : List Char) : Context :=
  if endsWithChars (charsToUpper pre) "FROM ".data ||
      (containsChars (charsToUpper pre) "FROM ".data &&
        !containsChars (charsToUpper pre) "WHERE".data) then
    Context.TableName
  else if startsWithChars "SELECT ".data (charsToUpper pre) &&
      !containsChars (charsToUpper pre) "FROM".data then
    Context.ColumnName
  else if containsChars (charsToUpper pre) "WHERE ".data ||
      containsChars (charsToUpper pre) "ON ".data then
    Context.ColumnName
  else Context.General

/-- C8 (amended): whenever the byte-prefix before the word is defined, the
code's classification agrees with the amended rule
(`amendedContextOf`). -/
theorem analyzeContext_amended (query : List Char) (cursorPos : Nat)
    (pre : List Char)
    (h : byteTake query (min cursorPos (byteLen query)) = some pre) :
    analyzeContext query cursorPos = some (amendedContextOf pre) := by
  unfold analyzeContext amendedContextOf
  rw [h]
  rfl

/-- C8 witness: the amended classification applied to "SELECT x" with the
word "x" starting at position 7. -/
theorem analyzeContext_amended_witness :
    analyzeContext "SELECT x".data 7 = some (amendedContextOf "SELECT ".data) :=
  analyzeContext_amended "SELECT x".data 7 "SELECT ".data (by rfl)

end PgTui
